import Mathlib

/-!
Verification of the AutoCandidate workflow core (checkpoint store, phase
controller, parallel dispatch, task executor, integration engine) against
its natural-language specification.  Python source files are shallowly
embedded as Lean definitions; file-system and subprocess effects are
modelled by explicit state passing and environment records of stub
behaviours.
-/

/- ### Checkpoint store (modules/checkpoint.py) -/

/-- The checkpoint document, as persisted by `CheckpointManager.save_checkpoint`.
Fields mirror the JSON keys the pipeline reads and writes at the top level:
`version`, `workspace`, `repo_path`, `prompt_hash`, `current_phase`,
`phases_completed`.  Keys that may be absent are `Option`s. -/
structure Ckpt where
  version : String
  workspace : String
  repo_path : Option String
  prompt_hash : Option String
  current_phase : Nat
  phases_completed : List Nat
deriving DecidableEq

/-- A top-level state dictionary passed to `save_checkpoint`: the merge
`checkpoint_data.update(state)` overwrites exactly the keys present in
`state`.  The pipeline's phase states only ever carry these top-level keys
(besides the per-phase sub-records, which do not interact with the store's
own fields); `none` means the key is absent from the dictionary. -/
structure StateUpd where
  workspace : Option String
  repo_path : Option String
  prompt_hash : Option String
deriving DecidableEq

/-- The empty state dictionary. -/
def emptyUpd : StateUpd := ⟨none, none, none⟩

/-- Insert a number into a list, keeping it sorted and duplicate-free when
the list already is.  Used to express `sorted(list(set(...)))`. -/
def insDedup (a : Nat) : List Nat → List Nat
  | [] => [a]
  | b :: bs => if a < b then a :: b :: bs else if a = b then b :: bs else b :: insDedup a bs

/-- `sorted(list(set(l)))` from `save_checkpoint`: the canonical sorted,
duplicate-free listing of the elements of `l`. -/
def sortedDedup (l : List Nat) : List Nat := l.foldr insDedup []

/-- `CheckpointManager.save_checkpoint(phase, state)` (checkpoint.py lines
27-59): load the existing checkpoint, or initialize `{version, workspace}`;
stamp `current_phase = phase`; add `phase` to `phases_completed` via
`sorted(list(set(...)))`; merge `state` over the document. -/
def save_checkpoint (file : Option Ckpt) (phase : Nat) (st : StateUpd) (ws : String) : Ckpt :=
  let base : Ckpt :=
    match file with
    | some cd => cd
    | none => ⟨"1.0", ws, none, none, 0, []⟩
  ⟨base.version,
   (st.workspace).getD base.workspace,
   match st.repo_path with
   | some r => some r
   | none => base.repo_path,
   match st.prompt_hash with
   | some h => some h
   | none => base.prompt_hash,
   phase,
   sortedDedup (phase :: base.phases_completed)⟩

/-- `CheckpointManager.validate_checkpoint(prompt_hash, workspace, repo_path)`
(checkpoint.py lines 91-122).  `file` is the result of `load_checkpoint`
(`none` when the file is absent or fails to parse).  The guard
`if saved_hash and saved_hash != prompt_hash` uses Python truthiness, so an
empty stored hash skips the comparison. -/
def validate_checkpoint (file : Option Ckpt) (prompt_hash workspace repo_path : String) : Bool :=
  match file with
  | none => false
  | some cd =>
    if cd.workspace ≠ workspace then false
    else if cd.repo_path ≠ some repo_path then false
    else
      match cd.prompt_hash with
      | none => true
      | some saved => if saved ≠ "" ∧ saved ≠ prompt_hash then false else true

/-- `calculate_prompt_hash(prompt_path)` (checkpoint.py lines 151-169):
empty string when the prompt file is missing, otherwise the digest of the
file bytes with the `sha256:` tag.  The digest function itself is an
abstract parameter. -/
def calculate_prompt_hash (fileBytes : Option (List Nat)) (sha : List Nat → String) : String :=
  match fileBytes with
  | none => ""
  | some bs => "sha256:" ++ sha bs

/-- `CheckpointManager.get_phases_completed` applied to a loaded file. -/
def phasesCompletedOf (file : Option Ckpt) : List Nat :=
  match file with
  | none => []
  | some cd => cd.phases_completed

/-- `CheckpointManager.get_current_phase` applied to a loaded file
(0 when no checkpoint). -/
def currentPhaseOf (file : Option Ckpt) : Nat :=
  match file with
  | none => 0
  | some cd => cd.current_phase

/-- Replay a sequence of `save_checkpoint(phase, state)` calls against the
checkpoint file. -/
def applySaves (ws : String) (file : Option Ckpt) : List (Nat × StateUpd) → Option Ckpt
  | [] => file
  | (p, st) :: rest => applySaves ws (some (save_checkpoint file p st ws)) rest

/-- Replay a sequence of saves that carry no store-level keys. -/
def applyPhases (ws : String) (file : Option Ckpt) (ps : List Nat) : Option Ckpt :=
  applySaves ws file (ps.map (fun p => (p, emptyUpd)))

/- ### Lemmas about `sortedDedup` -/

theorem mem_insDedup {x a : Nat} : ∀ {l : List Nat}, x ∈ insDedup a l ↔ x = a ∨ x ∈ l := by
  intro l
  induction l with
  | nil => simp [insDedup]
  | cons b bs ih =>
    by_cases hab : a < b
    · simp [insDedup, hab]
    · by_cases heq : a = b
      · subst heq
        have hrw : insDedup a (a :: bs) = a :: bs := by
          simp [insDedup, hab]
        rw [hrw, List.mem_cons]
        tauto
      · simp only [insDedup, if_neg hab, if_neg heq, List.mem_cons, ih]
        tauto

theorem pairwise_insDedup {a : Nat} :
    ∀ {l : List Nat}, l.Pairwise (· < ·) → (insDedup a l).Pairwise (· < ·) := by
  intro l
  induction l with
  | nil => intro _; simp [insDedup]
  | cons b bs ih =>
    intro h
    rcases List.pairwise_cons.1 h with ⟨hb, hbs⟩
    by_cases hab : a < b
    · simp only [insDedup, if_pos hab]
      refine List.pairwise_cons.2 ⟨?_, h⟩
      intro x hx
      rcases List.mem_cons.1 hx with rfl | hx
      · exact hab
      · exact lt_trans hab (hb x hx)
    · by_cases heq : a = b
      · subst heq
        simpa [insDedup, hab] using h
      · have hba : b < a := by omega
        simp only [insDedup, if_neg hab, if_neg heq]
        refine List.pairwise_cons.2 ⟨?_, ih hbs⟩
        intro x hx
        rcases mem_insDedup.1 hx with rfl | hx
        · exact hba
        · exact hb x hx

theorem mem_sortedDedup {x : Nat} : ∀ {l : List Nat}, x ∈ sortedDedup l ↔ x ∈ l := by
  intro l
  induction l with
  | nil => simp [sortedDedup]
  | cons b bs ih =>
    simp only [sortedDedup, List.foldr] at *
    rw [mem_insDedup, ih]
    simp

theorem pairwise_sortedDedup : ∀ {l : List Nat}, (sortedDedup l).Pairwise (· < ·) := by
  intro l
  induction l with
  | nil => simp [sortedDedup]
  | cons b bs ih => exact pairwise_insDedup ih

theorem nodup_sortedDedup {l : List Nat} : (sortedDedup l).Nodup :=
  pairwise_sortedDedup.imp (fun h => Nat.ne_of_lt h)

/-- Two strictly sorted lists with the same members are equal: the canonical
sorted representation of a set of naturals is unique. -/
theorem sorted_mem_ext {l l' : List Nat} (hl : l.Pairwise (· < ·)) (hl' : l'.Pairwise (· < ·))
    (h : ∀ x, x ∈ l ↔ x ∈ l') : l = l' := by
  have hperm : l.Perm l' :=
    (List.perm_ext_iff_of_nodup (hl.imp fun h => Nat.ne_of_lt h)
      (hl'.imp fun h => Nat.ne_of_lt h)).2 h
  exact List.eq_of_perm_of_sorted hperm (hl.imp fun h => Nat.le_of_lt h)
    (hl'.imp fun h => Nat.le_of_lt h)

/- ### Replay lemmas for the checkpoint store -/

theorem phases_save_checkpoint {file : Option Ckpt} {phase : Nat} {st : StateUpd} {ws : String}
    {x : Nat} :
    x ∈ (save_checkpoint file phase st ws).phases_completed ↔
      x = phase ∨ x ∈ phasesCompletedOf file := by
  cases file with
  | none => simp [save_checkpoint, phasesCompletedOf, mem_sortedDedup]
  | some cd => simp [save_checkpoint, phasesCompletedOf, mem_sortedDedup]

theorem pairwise_phases_save_checkpoint {file : Option Ckpt} {phase : Nat} {st : StateUpd}
    {ws : String} :
    (save_checkpoint file phase st ws).phases_completed.Pairwise (· < ·) := by
  cases file with
  | none => exact pairwise_sortedDedup
  | some cd => exact pairwise_sortedDedup

theorem mem_phases_applySaves {ws : String} {x : Nat} :
    ∀ (saves : List (Nat × StateUpd)) (file : Option Ckpt),
      x ∈ phasesCompletedOf (applySaves ws file saves) ↔
        x ∈ saves.map (fun s => s.1) ∨ x ∈ phasesCompletedOf file := by
  intro saves
  induction saves with
  | nil => intro file; simp [applySaves]
  | cons head rest ih =>
    intro file
    rcases head with ⟨p, st⟩
    have hsome : phasesCompletedOf (some (save_checkpoint file p st ws)) =
        (save_checkpoint file p st ws).phases_completed := rfl
    rw [applySaves, ih (some (save_checkpoint file p st ws)), hsome, phases_save_checkpoint]
    simp only [List.map_cons, List.mem_cons]
    tauto

theorem pairwise_phases_applySaves {ws : String} :
    ∀ (saves : List (Nat × StateUpd)) (file : Option Ckpt),
      (phasesCompletedOf file).Pairwise (· < ·) →
      (phasesCompletedOf (applySaves ws file saves)).Pairwise (· < ·) := by
  intro saves
  induction saves with
  | nil => intro file h; simpa [applySaves] using h
  | cons head rest ih =>
    intro file h
    rcases head with ⟨p, st⟩
    exact ih (some (save_checkpoint file p st ws)) pairwise_phases_save_checkpoint

/-- C10: after every `save_checkpoint(phase, state)` call, the stored
`phases_completed` field is a strictly ascending, duplicate-free list equal
to the canonical sorted representation of the set of all phases ever passed
to `save_checkpoint` for that checkpoint file. -/
theorem phases_completed_canonical (ws : String) (saves : List (Nat × StateUpd)) :
    (phasesCompletedOf (applySaves ws none saves)).Pairwise (· < ·) ∧
    (phasesCompletedOf (applySaves ws none saves)).Nodup ∧
    phasesCompletedOf (applySaves ws none saves) = sortedDedup (saves.map (fun s => s.1)) := by
  have hpw : (phasesCompletedOf (applySaves ws none saves)).Pairwise (· < ·) :=
    pairwise_phases_applySaves saves none (by simp [phasesCompletedOf])
  refine ⟨hpw, hpw.imp (fun h => Nat.ne_of_lt h), ?_⟩
  refine sorted_mem_ext hpw pairwise_sortedDedup ?_
  intro x
  rw [mem_phases_applySaves saves none, mem_sortedDedup]
  simp [phasesCompletedOf]

/- ### C2: validation of a checkpoint against the current run -/

/-- C2 (amended): `validate_checkpoint` returns true iff the checkpoint
loads, its stored `workspace` and `repo_path` exactly equal the arguments,
and any stored NON-EMPTY prompt hash equals the argument; consequently
every checkpoint whose stored prompt hash is non-empty and differs from the
hash of the current prompt file is rejected.  (An empty stored hash — the
value `calculate_prompt_hash` records when the prompt file is missing — is
treated as "no hash recorded" by the Python truthiness test and does not
invalidate.) -/
theorem validate_checkpoint_characterization (file : Option Ckpt) (ph ws rp : String) :
    (validate_checkpoint file ph ws rp = true ↔
      ∃ cd, file = some cd ∧ cd.workspace = ws ∧ cd.repo_path = some rp ∧
        ∀ h, cd.prompt_hash = some h → h ≠ "" → h = ph) ∧
    (∀ cd h, file = some cd → cd.prompt_hash = some h → h ≠ "" → h ≠ ph →
      validate_checkpoint file ph ws rp = false) := by
  have hmain : ∀ cd : Ckpt, (validate_checkpoint (some cd) ph ws rp = true ↔
      (cd.workspace = ws ∧ cd.repo_path = some rp ∧
        ∀ h, cd.prompt_hash = some h → h ≠ "" → h = ph)) := by
    rintro ⟨v, w, r, phh, cp, pc⟩
    constructor
    · intro hv
      by_cases hw : w = ws
      · by_cases hrr : r = some rp
        · subst hw
          subst hrr
          refine ⟨rfl, rfl, ?_⟩
          intro h hh hne
          cases phh with
          | none => exact absurd hh (by simp)
          | some saved =>
            simp only [Option.some.injEq] at hh
            subst hh
            simp only [validate_checkpoint] at hv
            rw [if_neg (by simp), if_neg (by simp)] at hv
            by_contra hneq
            rw [if_pos (And.intro hne hneq)] at hv
            exact absurd hv (by simp)
        · exfalso
          simp only [validate_checkpoint] at hv
          rw [if_neg (by simp [hw]), if_pos (by simp [hrr])] at hv
          exact absurd hv (by simp)
      · exfalso
        simp only [validate_checkpoint] at hv
        rw [if_pos (by simp [hw])] at hv
        exact absurd hv (by simp)
    · rintro ⟨hw, hr, hhash⟩
      simp only at hw hr hhash
      subst hw
      subst hr
      simp only [validate_checkpoint]
      rw [if_neg (by simp), if_neg (by simp)]
      cases phh with
      | none => rfl
      | some saved =>
        show (if saved ≠ "" ∧ saved ≠ ph then false else true) = true
        rw [if_neg ?_]
        rintro ⟨hne, hneq⟩
        exact hneq (hhash saved rfl hne)
  constructor
  · cases file with
    | none => simp [validate_checkpoint]
    | some cd =>
      rw [hmain cd]
      constructor
      · intro hv
        exact ⟨cd, rfl, hv⟩
      · rintro ⟨cd', hcd, hv⟩
        obtain rfl : cd' = cd := by injection hcd.symm
        exact hv
  · intro cd h hfile hph hne hneq
    subst hfile
    cases hb : validate_checkpoint (some cd) ph ws rp with
    | false => rfl
    | true =>
      obtain ⟨hw, hr, hh⟩ := (hmain cd).1 hb
      exact absurd (hh h hph hne) hneq

/-- Concrete checkpoint with matching workspace and repo path whose stored
prompt hash is the empty string (the value recorded when the prompt file was
missing at save time). -/
def ckEmptyHash : Ckpt := ⟨"1.0", "ws", some "rp", some "", 1, [1]⟩

/-- C2 counterexample: a checkpoint whose stored prompt hash is the empty
string differs from the sha256 hash of the current (existing) prompt file,
yet `validate_checkpoint` returns true — the Python truthiness test
`if saved_hash and ...` skips the comparison for an empty stored hash. -/
theorem validate_checkpoint_empty_hash_counterexample :
    ckEmptyHash.prompt_hash = some "" ∧
    calculate_prompt_hash (some [104, 105]) (fun _ => "d") = "sha256:d" ∧
    ("" : String) ≠ "sha256:d" ∧
    validate_checkpoint (some ckEmptyHash) "sha256:d" "ws" "rp" = true :=
  ⟨rfl, rfl, by decide, by decide⟩

/-- Concrete checkpoint with a recorded non-empty prompt hash. -/
def ckStaleHash : Ckpt := ⟨"1.0", "ws", some "rp", some "sha256:old", 2, [1, 2]⟩

/-- C2 witness: the amended characterization applied at concrete inputs — a
checkpoint with stored non-empty hash `sha256:old` is rejected when the
current prompt hashes to `sha256:new`. -/
theorem validate_checkpoint_characterization_witness :
    validate_checkpoint (some ckStaleHash) "sha256:new" "ws" "rp" = false :=
  (validate_checkpoint_characterization (some ckStaleHash) "sha256:new" "ws" "rp").2
    ckStaleHash "sha256:old" rfl rfl (by decide) (by decide)

/- ### C3: save sequences performed by the pipeline (main.py) -/

/-- The phases saved, in order, by an uninterrupted run of `start` with
`resume_from_phase = r` (main.py lines 374-792): phases `r..3` execute
fresh and each saves its checkpoint; phase 4 always executes and saves. -/
def fullSaveSeq : Nat → List Nat
  | 1 => [1, 2, 3, 4]
  | 2 => [2, 3, 4]
  | 3 => [3, 4]
  | _ => [4]

/-- Last element of a list, with default `k` — the stored `current_phase`
after replaying a save sequence from a store holding `k`. -/
def lastD (k : Nat) (s : List Nat) : Nat := (s.getLast?).getD k

/-- `p` is the sequence of end-of-phase boundary saves a run with
`resume_from_phase = r` has completed so far: a prefix of the
uninterrupted sequence (covering normal completion, abnormal exits, and
the interrupt-handler save of phase 3 during phase-3 execution with
partial results, which coincides with the prefix ending at 3). -/
def IsPrefixSeq (r : Nat) (p : List Nat) : Prop := ∃ q, fullSaveSeq r = p ++ q

/-- `handlerSave last e`: the phases `e` the interrupt handler (main.py
lines 37-91) can save when the last end-of-phase boundary save was `last`.
The handler saves `current_phase - 1` (lines 80, 83) — or 3 during phase 3
with partial results (line 77) — and `interrupt_context["current_phase"]`
is only bumped at the start of the next phase block (lines 401, 529, 640),
so the handler save can sit one phase below the last boundary save:
after `save(1)` the only truthy-`phase_state` window is phase 2
(`current_phase = 2`, saves 1); after `save(2)` the windows are lines
501-528 (`current_phase` still 2, saves 1), phase 3 before the first
collected result (saves 2), and phase 3 with partial results (saves 3);
after `save(3)` the windows are lines 617-639 (saves 3 with non-empty
`task_results`, 2 with empty ones) and phase 4 (saves 3); after `save(4)`
the window is lines 786-795, where `current_phase` is still 4 and
`phase_state` is still the truthy phase-3 state, so the handler saves 3.
On deep resumes `phase_state` can be the falsy `{}` and the handler saves
nothing (the prefix case); the relation over-approximates those runs,
which only strengthens the universally quantified theorem, and every pair
of the table is reachable in a fresh run. -/
def handlerSave : Nat → Nat → Prop
  | 1, e => e = 1
  | 2, e => e = 1 ∨ e = 2 ∨ e = 3
  | 3, e => e = 2 ∨ e = 3
  | 4, e => e = 3
  | _, _ => False

/-- The save sequences a single `start` run with `resume_from_phase = r`
can perform: its boundary saves so far, optionally followed by one
interrupt-handler save (after which the process exits). -/
def RunSaves (r : Nat) (s : List Nat) : Prop :=
  IsPrefixSeq r s ∨
  ∃ p last e, IsPrefixSeq r p ∧ p.getLast? = some last ∧ handlerSave last e ∧ s = p ++ [e]

/-- All save-call chains the pipeline can perform against one checkpoint
file: each run resumes from the stored phase (`resume_from_phase =
current_phase + 1`, main.py lines 358-366), or starts fresh over the
surviving checkpoint (resume not requested — lines 371-372 leave the stale
checkpoint in place and the run saves from phase 1). -/
inductive PipelineSaves : Nat → List Nat → Prop
  | nil (k : Nat) : PipelineSaves k []
  | resumeRun (k : Nat) (s s' : List Nat) : RunSaves (k + 1) s →
      PipelineSaves (lastD k s) s' → PipelineSaves k (s ++ s')
  | freshRun (k : Nat) (s s' : List Nat) : RunSaves 1 s →
      PipelineSaves (lastD k s) s' → PipelineSaves k (s ++ s')

/-- `ResumeRuns k b s`: chains of runs against one checkpoint file in which
every later run resumes from a validated checkpoint, starting from stored
phase `k` (0 = no checkpoint, so `resume_from_phase = 1`).  `s` is the full
save sequence; `b` is its subsequence of end-of-phase boundary saves (the
handler saves excluded).  A run either ends normally (or by a save-less
exit) after its boundary prefix, or is interrupted with one final handler
save `e`, after which the stored phase is `e` and the next run resumes
from `e + 1`. -/
inductive ResumeRuns : Nat → List Nat → List Nat → Prop
  | nil (k : Nat) : ResumeRuns k [] []
  | runNormal (k : Nat) (p b' s' : List Nat) : IsPrefixSeq (k + 1) p →
      ResumeRuns (lastD k p) b' s' → ResumeRuns k (p ++ b') (p ++ s')
  | runInterrupted (k : Nat) (p : List Nat) (last e : Nat) (b' s' : List Nat) :
      IsPrefixSeq (k + 1) p → p.getLast? = some last → handlerSave last e →
      ResumeRuns e b' s' → ResumeRuns k (p ++ b') (p ++ [e] ++ s')

theorem mem_of_getLast?_eq {l : List Nat} {e : Nat} (h : l.getLast? = some e) : e ∈ l := by
  have he : e ∈ l.getLast? := by rw [h]; rfl
  rcases List.mem_getLast?_eq_getLast he with ⟨hne, rfl⟩
  exact List.getLast_mem hne

theorem lastD_cons {a x : Nat} {xs : List Nat} : lastD a (x :: xs) = lastD x xs := by
  cases xs with
  | nil => rfl
  | cons y ys =>
    simp [lastD, List.getLast?_cons_cons,
      List.getLast?_eq_getLast_of_ne_nil (List.cons_ne_nil y ys)]

theorem lastD_concat {a e : Nat} {p : List Nat} : lastD a (p ++ [e]) = e := by
  simp [lastD, List.getLast?_concat]

theorem lastD_eq_of_getLast? {a last : Nat} {p : List Nat} (h : p.getLast? = some last) :
    lastD a p = last := by
  simp [lastD, h]

theorem chain_of_chain_append {R : Nat → Nat → Prop} {a : Nat} :
    ∀ {l q : List Nat}, List.Chain R a (l ++ q) → List.Chain R a l := by
  intro l
  induction l generalizing a with
  | nil => intro q _; exact List.Chain.nil
  | cons x xs ih =>
    intro q h
    rcases List.chain_cons.1 h with ⟨hax, h'⟩
    exact List.chain_cons.2 ⟨hax, ih h'⟩

theorem chain_append_chain {R : Nat → Nat → Prop} :
    ∀ {l1 l2 : List Nat} {a : Nat}, List.Chain R a l1 →
      List.Chain R (lastD a l1) l2 → List.Chain R a (l1 ++ l2) := by
  intro l1
  induction l1 with
  | nil => intro l2 a _ h2; exact h2
  | cons x xs ih =>
    intro l2 a h1 h2
    rcases List.chain_cons.1 h1 with ⟨hax, h'⟩
    rw [lastD_cons] at h2
    exact List.chain_cons.2 ⟨hax, ih h' h2⟩

theorem chain_split {R : Nat → Nat → Prop} :
    ∀ {p : List Nat} {a e : Nat} {s q : List Nat}, List.Chain R a s →
      s = p ++ e :: q → R (lastD a p) e := by
  intro p
  induction p with
  | nil =>
    intro a e s q h hs
    subst hs
    exact (List.chain_cons.1 h).1
  | cons x xs ih =>
    intro a e s q h hs
    subst hs
    rcases List.chain_cons.1 h with ⟨_, h'⟩
    rw [lastD_cons]
    exact ih h' rfl

theorem chain_head_mono {R : Nat → Nat → Prop} {a b : Nat} {l : List Nat}
    (h : List.Chain R a l) (hb : ∀ x, l.head? = some x → R b x) : List.Chain R b l := by
  cases l with
  | nil => exact List.Chain.nil
  | cons x xs =>
    rcases List.chain_cons.1 h with ⟨_, h'⟩
    exact List.chain_cons.2 ⟨hb x rfl, h'⟩

theorem chain_fullSaveSeq {r : Nat} (h1 : 1 ≤ r) (h5 : r ≤ 5) :
    List.Chain (· ≤ ·) (r - 1) (fullSaveSeq r) := by
  interval_cases r <;> simp [fullSaveSeq, List.chain_cons]

theorem mem_fullSaveSeq_le {r x : Nat} (h : x ∈ fullSaveSeq r) : x ≤ 4 := by
  rcases r with _ | _ | _ | _ | n <;> simp [fullSaveSeq] at h <;> omega

theorem isPrefixSeq_chain {r : Nat} {p : List Nat} (h1 : 1 ≤ r) (h5 : r ≤ 5)
    (h : IsPrefixSeq r p) : List.Chain (· ≤ ·) (r - 1) p := by
  rcases h with ⟨q, hq⟩
  exact chain_of_chain_append (hq ▸ chain_fullSaveSeq h1 h5)

theorem isPrefixSeq_le {r : Nat} {p : List Nat} (h : IsPrefixSeq r p) : ∀ x ∈ p, x ≤ 4 := by
  rcases h with ⟨q, hq⟩
  intro x hx
  exact mem_fullSaveSeq_le (hq ▸ List.mem_append_left q hx)

theorem isPrefixSeq_head {r x : Nat} {xs : List Nat} (h : IsPrefixSeq r (x :: xs)) :
    min r 4 ≤ x := by
  rcases h with ⟨q, hq⟩
  rcases r with _ | _ | _ | _ | n <;> simp [fullSaveSeq] at hq <;> omega

theorem handlerSave_le {last e : Nat} (h : handlerSave last e) : last ≤ e + 1 ∧ e ≤ 3 := by
  rcases last with _ | _ | _ | _ | _ | n
  · exact False.elim h
  · simp only [handlerSave] at h
    omega
  · simp only [handlerSave] at h
    rcases h with rfl | rfl | rfl <;> omega
  · simp only [handlerSave] at h
    rcases h with rfl | rfl <;> omega
  · simp only [handlerSave] at h
    omega
  · exact False.elim h

/-- A save may step the store back by at most one phase. -/
def stepBack (x y : Nat) : Prop := x ≤ y + 1

theorem resumeRuns_props :
    ∀ {k : Nat} {b s : List Nat}, ResumeRuns k b s → k ≤ 4 →
      (List.Chain (· ≤ ·) k b ∧ List.Chain stepBack k s) ∧
      ((∀ x ∈ b, x ≤ 4) ∧ (∀ x ∈ s, x ≤ 4)) ∧
      (∀ h, b.head? = some h → min (k + 1) 4 ≤ h) := by
  intro k b s h
  induction h with
  | nil k =>
    intro _
    exact ⟨⟨List.Chain.nil, List.Chain.nil⟩, ⟨by simp, by simp⟩, by simp⟩
  | runNormal k p b' s' hpre hrest ih =>
    intro hk
    have hchainP : List.Chain (· ≤ ·) k p := by
      have := isPrefixSeq_chain (by omega) (by omega) hpre
      simpa using this
    have hleP : ∀ x ∈ p, x ≤ 4 := isPrefixSeq_le hpre
    have hlastle : lastD k p ≤ 4 := by
      cases hp : p.getLast? with
      | none => simpa [lastD, hp] using hk
      | some y => simpa [lastD, hp] using hleP y (mem_of_getLast?_eq hp)
    obtain ⟨⟨hb', hs'⟩, ⟨hleB', hleS'⟩, hhead'⟩ := ih hlastle
    refine ⟨⟨chain_append_chain hchainP hb', ?_⟩, ⟨?_, ?_⟩, ?_⟩
    · exact chain_append_chain (hchainP.imp fun x y hxy => Nat.le_succ_of_le hxy) hs'
    · intro x hx
      rcases List.mem_append.1 hx with hx | hx
      · exact hleP x hx
      · exact hleB' x hx
    · intro x hx
      rcases List.mem_append.1 hx with hx | hx
      · exact hleP x hx
      · exact hleS' x hx
    · intro h hh
      cases p with
      | nil => exact hhead' h hh
      | cons x xs =>
        simp only [List.cons_append, List.head?_cons, Option.some.injEq] at hh
        subst hh
        exact isPrefixSeq_head hpre
  | runInterrupted k p last e b' s' hpre hlast hhs hrest ih =>
    intro hk
    obtain ⟨hle1, he3⟩ := handlerSave_le hhs
    have hchainP : List.Chain (· ≤ ·) k p := by
      have := isPrefixSeq_chain (by omega) (by omega) hpre
      simpa using this
    have hleP : ∀ x ∈ p, x ≤ 4 := isPrefixSeq_le hpre
    have hlast4 : last ≤ 4 := hleP last (mem_of_getLast?_eq hlast)
    have hlastD : lastD k p = last := lastD_eq_of_getLast? hlast
    obtain ⟨⟨hb', hs'⟩, ⟨hleB', hleS'⟩, hhead'⟩ := ih (by omega)
    have hchainB' : List.Chain (· ≤ ·) (lastD k p) b' := by
      refine chain_head_mono hb' ?_
      intro x hx
      have hmin := hhead' x hx
      rw [hlastD]
      exact le_trans (le_min_iff.2 ⟨hle1, hlast4⟩) hmin
    refine ⟨⟨chain_append_chain hchainP hchainB', ?_⟩, ⟨?_, ?_⟩, ?_⟩
    · have hchainPe : List.Chain stepBack k (p ++ [e]) := by
        refine chain_append_chain (hchainP.imp fun x y hxy => Nat.le_succ_of_le hxy) ?_
        rw [hlastD]
        exact List.chain_cons.2 ⟨hle1, List.Chain.nil⟩
      refine chain_append_chain hchainPe ?_
      rw [lastD_concat]
      exact hs'
    · intro x hx
      rcases List.mem_append.1 hx with hx | hx
      · exact hleP x hx
      · exact hleB' x hx
    · intro x hx
      rcases List.mem_append.1 hx with hx | hx
      · rcases List.mem_append.1 hx with hx | hx
        · exact hleP x hx
        · rcases List.mem_singleton.1 hx with rfl
          omega
      · exact hleS' x hx
    · intro h hh
      cases p with
      | nil => exact absurd hlast (by simp)
      | cons x xs =>
        simp only [List.cons_append, List.head?_cons, Option.some.injEq] at hh
        subst hh
        exact isPrefixSeq_head hpre

theorem currentPhase_applyPhases {ws : String} :
    ∀ (ps : List Nat) (f : Option Ckpt),
      currentPhaseOf (applyPhases ws f ps) = lastD (currentPhaseOf f) ps := by
  intro ps
  induction ps with
  | nil => intro f; rfl
  | cons p ps' ih =>
    intro f
    have step : applyPhases ws f (p :: ps') =
        applyPhases ws (some (save_checkpoint f p emptyUpd ws)) ps' := rfl
    rw [step, ih (some (save_checkpoint f p emptyUpd ws)), lastD_cons]
    rfl

/-- C3 (amended): across every chain of runs in which each restart resumes
from a validated checkpoint, (i) the end-of-phase boundary saves carry
monotonically non-decreasing phases; (ii) every save — the interrupt
handler's save of `current_phase - 1` included — carries a phase at least
the stored `current_phase` minus one, so the handler steps the store back
by at most one phase; and (iii) unconditionally for every save, the stored
`phases_completed` set only grows.  Monotonicity across all saves fails:
the handler save and a non-resume fresh restart can decrease
`current_phase` (see the counterexample). -/
theorem checkpoint_monotonicity_amended (b s : List Nat) (h : ResumeRuns 0 b s) :
    List.Chain (· ≤ ·) 0 b ∧
    (∀ p e q, s = p ++ e :: q → currentPhaseOf (applyPhases "ws" none p) ≤ e + 1) ∧
    (∀ (file : Option Ckpt) (phase : Nat) (st : StateUpd) (ws : String) (x : Nat),
      x ∈ phasesCompletedOf file → x ∈ (save_checkpoint file phase st ws).phases_completed) := by
  obtain ⟨⟨hb, hs⟩, _, _⟩ := resumeRuns_props h (by omega)
  refine ⟨hb, ?_, ?_⟩
  · intro p e q hsplit
    have hstep := chain_split hs hsplit
    rw [currentPhase_applyPhases]
    simpa [currentPhaseOf, stepBack] using hstep
  · intro file phase st ws x hx
    exact phases_save_checkpoint.2 (Or.inr hx)

/-- C3 witness: the amended theorem applied to the concrete single
uninterrupted run `[1, 2, 3, 4]`, and the growth of `phases_completed` at
a concrete save. -/
theorem checkpoint_monotonicity_amended_witness :
    List.Chain (· ≤ ·) 0 [1, 2, 3, 4] ∧
    currentPhaseOf (applyPhases "ws" none [1, 2]) ≤ 3 + 1 ∧
    2 ∈ (save_checkpoint (some ⟨"1.0", "ws", none, none, 2, [2]⟩) 3 emptyUpd
      "ws").phases_completed := by
  have h : ResumeRuns 0 [1, 2, 3, 4] [1, 2, 3, 4] :=
    ResumeRuns.runNormal 0 [1, 2, 3, 4] [] [] ⟨[], rfl⟩ (ResumeRuns.nil _)
  exact ⟨(checkpoint_monotonicity_amended [1, 2, 3, 4] [1, 2, 3, 4] h).1,
    (checkpoint_monotonicity_amended [1, 2, 3, 4] [1, 2, 3, 4] h).2.1 [1, 2] 3 [4] rfl,
    (checkpoint_monotonicity_amended [1, 2, 3, 4] [1, 2, 3, 4] h).2.2
      (some ⟨"1.0", "ws", none, none, 2, [2]⟩) 3 emptyUpd "ws" 2 (by decide)⟩

/-- C3 counterexample: within a single run — no restart involved — the
pipeline performs the save sequence `[1, 2, 3, 4, 3]`: an interrupt arriving
after the phase-4 save (main.py line 785) finds `current_phase` still 4 and
`phase_state` still the truthy phase-3 state installed at line 617, so the
handler saves `current_phase - 1 = 3` (line 83) and the stored
`current_phase` drops from 4 to 3.  A fresh run started without `--resume`
over a surviving checkpoint likewise drops it from 3 to 1
(`[1, 2, 3, 1]`, lines 371-372).  The stored `current_phase` is therefore
not monotonically non-decreasing across the save sequences the pipeline
performs. -/
theorem current_phase_decrease_counterexample :
    ResumeRuns 0 [1, 2, 3, 4] [1, 2, 3, 4, 3] ∧
    currentPhaseOf (applyPhases "ws" none [1, 2, 3, 4]) = 4 ∧
    currentPhaseOf (applyPhases "ws" none [1, 2, 3, 4, 3]) = 3 ∧
    PipelineSaves 0 [1, 2, 3, 1] ∧
    currentPhaseOf (applyPhases "ws" none [1, 2, 3]) = 3 ∧
    currentPhaseOf (applyPhases "ws" none [1, 2, 3, 1]) = 1 := by
  refine ⟨?_, rfl, rfl, ?_, rfl, rfl⟩
  · exact ResumeRuns.runInterrupted 0 [1, 2, 3, 4] 4 3 [] [] ⟨[], rfl⟩ (by decide)
      (by simp [handlerSave]) (ResumeRuns.nil 3)
  · have h2 : PipelineSaves (lastD 0 [1, 2, 3]) [1] :=
      PipelineSaves.freshRun _ [1] [] (Or.inl ⟨[2, 3, 4], rfl⟩) (PipelineSaves.nil _)
    exact PipelineSaves.resumeRun 0 [1, 2, 3] [1] (Or.inl ⟨[4], rfl⟩) h2

/- ### C4: the task executor `process_task` (main.py lines 158-247) -/

/-- Task result statuses. -/
inductive TStatus
  | SUCCESS
  | WARN
  | FAILED
  | ERROR
deriving DecidableEq

/-- A task result dictionary as built by `process_task` (and later mutated
by the resume-verification and completion-marking code).  Optional fields
model keys absent from some of the dictionaries the code returns. -/
structure TaskResult where
  id : String
  status : TStatus
  branch : String
  files_changed : Option Nat
  lint : Option Bool
  error : Option String
  completed : Bool
deriving DecidableEq

/-- Outcomes of the external effects invoked by `process_task`, one slot per
step: branch creation/reset (step 1), worktree setup (step 2), LLM code
generation (step 3; the empty string models an empty/absent response),
patch application (step 4), lint (step 5; `QualityGate.run_linter` never
raises — `_run_cmd` catches every exception), and commit (step 6).
`Except.error e` is an exception with message `e`. -/
structure ExecEnv where
  branchSetup : Except String Unit
  worktreeSetup : Except String Unit
  codeResponse : Except String String
  patches : Except String (List String)
  lintOk : Bool
  commitRes : Except String Unit

/-- The result `process_task` returns from its `except Exception` handler:
status `ERROR`, the exception message, and the feature branch name. -/
def mkErrorResult (taskId e : String) : TaskResult :=
  ⟨taskId, .ERROR, "feat/" ++ taskId, none, none, some e, false⟩

/-- `process_task` (main.py lines 158-247): run steps 1-6 inside one
try/except, short-circuiting to `FAILED` on an empty generation response
and to `ERROR` on any exception; otherwise status is `SUCCESS`/`WARN` by
the lint outcome, committing only when at least one file was modified. -/
def process_task (taskId taskTitle : String) (env : ExecEnv) : TaskResult :=
  match env.branchSetup with
  | .error e => mkErrorResult taskId e
  | .ok _ =>
    match env.worktreeSetup with
    | .error e => mkErrorResult taskId e
    | .ok _ =>
      match env.codeResponse with
      | .error e => mkErrorResult taskId e
      | .ok resp =>
        if resp = "" then
          ⟨taskId, .FAILED, "feat/" ++ taskId, none, none, some "LLM Gen Failed", false⟩
        else
          match env.patches with
          | .error e => mkErrorResult taskId e
          | .ok modified =>
            if modified = [] then
              ⟨taskId, if env.lintOk then .SUCCESS else .WARN, "feat/" ++ taskId,
                some modified.length, some env.lintOk, none, false⟩
            else
              match env.commitRes with
              | .error e => mkErrorResult taskId e
              | .ok _ =>
                ⟨taskId, if env.lintOk then .SUCCESS else .WARN, "feat/" ++ taskId,
                  some modified.length, some env.lintOk, none, false⟩

/-- C4: `process_task` always returns exactly one `TaskResult` carrying the
task id and feature branch name (it is a total function — no exception
escapes); an empty generation response yields `FAILED` with an error field,
independently of the remaining steps; an exception in any of steps 1-6
yields `ERROR` with the exception message and the branch name; otherwise
the status is `SUCCESS` when lint passes and `WARN` when it fails,
including when zero files were modified. -/
theorem process_task_contract :
    (∀ tid t env, (process_task tid t env).id = tid ∧
      (process_task tid t env).branch = "feat/" ++ tid) ∧
    (∀ tid t env e, env.branchSetup = .error e →
      process_task tid t env = mkErrorResult tid e) ∧
    (∀ tid t env e, env.branchSetup = .ok () → env.worktreeSetup = .error e →
      process_task tid t env = mkErrorResult tid e) ∧
    (∀ tid t env e, env.branchSetup = .ok () → env.worktreeSetup = .ok () →
      env.codeResponse = .error e → process_task tid t env = mkErrorResult tid e) ∧
    (∀ tid t env, env.branchSetup = .ok () → env.worktreeSetup = .ok () →
      env.codeResponse = .ok "" →
      process_task tid t env =
        ⟨tid, .FAILED, "feat/" ++ tid, none, none, some "LLM Gen Failed", false⟩) ∧
    (∀ tid t env resp e, env.branchSetup = .ok () → env.worktreeSetup = .ok () →
      env.codeResponse = .ok resp → resp ≠ "" → env.patches = .error e →
      process_task tid t env = mkErrorResult tid e) ∧
    (∀ tid t env resp modified e, env.branchSetup = .ok () → env.worktreeSetup = .ok () →
      env.codeResponse = .ok resp → resp ≠ "" → env.patches = .ok modified →
      modified ≠ [] → env.commitRes = .error e →
      process_task tid t env = mkErrorResult tid e) ∧
    (∀ tid t env resp modified, env.branchSetup = .ok () → env.worktreeSetup = .ok () →
      env.codeResponse = .ok resp → resp ≠ "" → env.patches = .ok modified →
      (modified = [] ∨ env.commitRes = .ok ()) →
      process_task tid t env =
        ⟨tid, if env.lintOk then .SUCCESS else .WARN, "feat/" ++ tid,
          some modified.length, some env.lintOk, none, false⟩) := by
  refine ⟨?_, ?_, ?_, ?_, ?_, ?_, ?_, ?_⟩
  · intro tid t env
    rcases env with ⟨b, w, c, p, l, cm⟩
    rcases b with e | u
    · exact ⟨rfl, rfl⟩
    · rcases w with e | u
      · exact ⟨rfl, rfl⟩
      · rcases c with e | resp
        · exact ⟨rfl, rfl⟩
        · by_cases hresp : resp = ""
          · subst hresp
            exact ⟨rfl, rfl⟩
          · rcases p with e | modified
            · simp [process_task, hresp, mkErrorResult]
            · by_cases hmod : modified = []
              · subst hmod
                simp [process_task, hresp]
              · rcases cm with e | u
                · simp [process_task, hresp, hmod, mkErrorResult]
                · simp [process_task, hresp, hmod]
  · intro tid t env e hb
    simp [process_task, hb]
  · intro tid t env e hb hw
    simp [process_task, hb, hw]
  · intro tid t env e hb hw hc
    simp [process_task, hb, hw, hc]
  · intro tid t env hb hw hc
    simp [process_task, hb, hw, hc]
  · intro tid t env resp e hb hw hc hresp hp
    simp [process_task, hb, hw, hc, hresp, hp]
  · intro tid t env resp modified e hb hw hc hresp hp hmod hcm
    simp [process_task, hb, hw, hc, hresp, hp, hmod, hcm]
  · intro tid t env resp modified hb hw hc hresp hp hdisj
    rcases hdisj with hmod | hcm
    · subst hmod
      simp [process_task, hb, hw, hc, hresp, hp]
    · by_cases hmod : modified = []
      · subst hmod
        simp [process_task, hb, hw, hc, hresp, hp]
      · simp [process_task, hb, hw, hc, hresp, hp, hmod, hcm]

/-- Environment where code generation succeeds, one file is patched, and
lint fails. -/
def envWarnC4 : ExecEnv := ⟨.ok (), .ok (), .ok "code", .ok ["a.py"], false, .ok ()⟩

/-- Environment where the LLM returns an empty response. -/
def envEmptyC4 : ExecEnv := ⟨.ok (), .ok (), .ok "", .ok [], true, .ok ()⟩

/-- Environment where branch creation raises. -/
def envErrC4 : ExecEnv := ⟨.error "boom", .ok (), .ok "x", .ok [], true, .ok ()⟩

/-- C4 witness: the contract applied at concrete environments — an
exception gives `ERROR "boom"`, an empty response gives `FAILED`, and a
patched-but-lint-failing task gives `WARN`. -/
theorem process_task_contract_witness :
    process_task "t1" "Title" envErrC4 = mkErrorResult "t1" "boom" ∧
    process_task "t1" "Title" envEmptyC4 =
      ⟨"t1", .FAILED, "feat/t1", none, none, some "LLM Gen Failed", false⟩ ∧
    process_task "t1" "Title" envWarnC4 =
      ⟨"t1", .WARN, "feat/t1", some 1, some false, none, false⟩ := by
  refine ⟨process_task_contract.2.1 "t1" "Title" envErrC4 "boom" rfl, ?_, ?_⟩
  · have := process_task_contract.2.2.2.2.1 "t1" "Title" envEmptyC4 rfl rfl rfl
    simpa using this
  · have := process_task_contract.2.2.2.2.2.2.2 "t1" "Title" envWarnC4 "code" ["a.py"]
      rfl rfl rfl (by decide) rfl (Or.inr rfl)
    simpa using this

/- ### C5/C6: integration engine (main.py lines 675-715, git_ops.py lines 147-215) -/

/-- Outcome of the initial `repo.git.merge(source_branch)` attempt. -/
inductive MergeOutcome
  | clean
  | conflict (files : List String)
  | otherError

/-- Environment for one `GitOperations.merge_feature_branch` call: the merge
outcome, the external resolver (`none` models an exception while reading or
resolving a file, `some ""` an empty response), and whether the final merge
commit succeeds. -/
structure MergeEnv where
  outcome : MergeOutcome
  resolve : String → Option String
  commitOk : Bool

/-- Result of `merge_feature_branch`: the returned boolean, and whether
`git merge --abort` was invoked (the merge rolled back). -/
structure MergeResult where
  success : Bool
  aborted : Bool
deriving DecidableEq

/-- The per-conflicted-file loop of `merge_feature_branch` (git_ops.py lines
178-202): resolve each file in order; an exception or an empty resolver
response stops the loop with failure. -/
def resolveLoop (env : MergeEnv) : List String → Bool
  | [] => true
  | f :: fs =>
    match env.resolve f with
    | none => false
    | some c => if c = "" then false else resolveLoop env fs

/-- `GitOperations.merge_feature_branch` (git_ops.py lines 147-215): clean
merges succeed; with a resolver, conflicts are resolved file by file, any
failure aborting the whole merge (`git merge --abort`) and returning false;
an empty conflicted-file list or any other git error also aborts. -/
def merge_feature_branch (env : MergeEnv) (hasResolver : Bool) : MergeResult :=
  match env.outcome with
  | .clean => ⟨true, false⟩
  | .otherError => ⟨false, true⟩
  | .conflict files =>
    if hasResolver = false then ⟨false, true⟩
    else if files = [] then ⟨false, true⟩
    else if resolveLoop env files then
      (if env.commitOk then ⟨true, false⟩ else ⟨false, true⟩)
    else ⟨false, true⟩

/-- Environment for the phase-4 merge loop: whether each branch still
exists (`repo.git.rev_parse('--verify', branch)`) and whether
`merge_feature_branch` succeeds on it. -/
structure IntegEnv where
  branchExists : String → Bool
  mergeOk : String → Bool

/-- The phase-4 merge loop (main.py lines 694-713): for each task result in
order, skip (with a warning) branches that no longer exist; otherwise
attempt the merge, adding the branch to `merged_branches` on success.
Returns the list of branches on which a merge was attempted, and the final
`merged_branches`. -/
def integrationFold (env : IntegEnv) : List TaskResult → List String → List String × List String
  | [], merged => ([], merged)
  | r :: rs, merged =>
    if env.branchExists r.branch then
      let merged' := if env.mergeOk r.branch then merged ++ [r.branch] else merged
      let rest := integrationFold env rs merged'
      (r.branch :: rest.1, rest.2)
    else
      integrationFold env rs merged

/-- Merge order on task results: ascending task id, as in
`successful_tasks.sort(key=lambda x: x["id"])`. -/
def resultLe (a b : TaskResult) : Prop := a.id ≤ b.id

instance : DecidableRel resultLe := fun a b => inferInstanceAs (Decidable (a.id ≤ b.id))

instance : IsTotal TaskResult resultLe := ⟨fun a b => le_total a.id b.id⟩

instance : IsTrans TaskResult resultLe := ⟨fun _ _ _ h1 h2 => le_trans h1 h2⟩

/-- `successful_tasks` (main.py lines 675-676): the results with status
`SUCCESS` or `WARN`, sorted by task id (Python's stable sort, modelled by
insertion sort). -/
def successfulSorted (results : List TaskResult) : List TaskResult :=
  List.insertionSort resultLe
    (results.filter (fun r => r.status == TStatus.SUCCESS || r.status == TStatus.WARN))

/-- The phase-4 integration pass: drop branches already in the resume-time
`merged_branches` set (main.py line 686), then run the merge loop. -/
def integrationRun (env : IntegEnv) (results : List TaskResult) (merged0 : List String) :
    List String × List String :=
  integrationFold env
    ((successfulSorted results).filter (fun r => !(merged0.contains r.branch))) merged0

theorem integrationFold_attempted (env : IntegEnv) :
    ∀ (l : List TaskResult) (merged : List String),
      (integrationFold env l merged).1 =
        (l.filter (fun r => env.branchExists r.branch)).map (fun r => r.branch) := by
  intro l
  induction l with
  | nil => intro merged; rfl
  | cons r rs ih =>
    intro merged
    by_cases hb : env.branchExists r.branch
    · simp [integrationFold, hb, ih]
    · simp [integrationFold, hb, ih]

/-- C5: integration attempts to merge exactly the branches of results with
status `SUCCESS` or `WARN` — in ascending task-id order — minus those in
the resume-time `merged_branches` set and minus (with a warning, without
failing the run: the loop is a total function on every input) those whose
branch no longer exists. -/
theorem integration_merge_order (env : IntegEnv) (results : List TaskResult)
    (merged0 : List String) :
    (integrationRun env results merged0).1 =
      (((successfulSorted results).filter (fun r => !(merged0.contains r.branch))).filter
        (fun r => env.branchExists r.branch)).map (fun r => r.branch) ∧
    List.Sorted resultLe (successfulSorted results) ∧
    List.Sorted resultLe
      (((successfulSorted results).filter (fun r => !(merged0.contains r.branch))).filter
        (fun r => env.branchExists r.branch)) ∧
    (∀ r, r ∈ successfulSorted results ↔
      r ∈ results ∧ (r.status = TStatus.SUCCESS ∨ r.status = TStatus.WARN)) := by
  have hsorted : List.Sorted resultLe (successfulSorted results) :=
    List.sorted_insertionSort resultLe _
  refine ⟨integrationFold_attempted env _ merged0, hsorted,
    (hsorted.filter _).filter _, ?_⟩
  intro r
  rw [successfulSorted, (List.perm_insertionSort resultLe _).mem_iff, List.mem_filter]
  simp

theorem resolveLoop_false {menv : MergeEnv} {f : String} :
    ∀ {files : List String}, f ∈ files →
      (menv.resolve f = none ∨ menv.resolve f = some "") → resolveLoop menv files = false := by
  intro files
  induction files with
  | nil => intro h _; exact absurd h (by simp)
  | cons g gs ih =>
    intro hmem he
    rcases List.mem_cons.1 hmem with rfl | hmem
    · rcases he with he | he <;> simp [resolveLoop, he]
    · simp only [resolveLoop]
      cases hr : menv.resolve g with
      | none => rfl
      | some c =>
        by_cases hc : c = ""
        · simp [hc]
        · simp [hc, ih hmem he]

/-- C6: when a conflicted merge meets an empty (or failed) resolver
response for some conflicted file, the whole merge is aborted
(`git merge --abort`) and `merge_feature_branch` returns false; in the
integration loop a branch whose merge returns false is never added to
`merged_branches`, and the remaining branches are still attempted. -/
theorem merge_empty_resolution_aborts (menv : MergeEnv) (files : List String) (f : String)
    (hc : menv.outcome = .conflict files) (hf : f ∈ files)
    (he : menv.resolve f = none ∨ menv.resolve f = some "") :
    (merge_feature_branch menv true).success = false ∧
    (merge_feature_branch menv true).aborted = true ∧
    (∀ (env : IntegEnv) (rs : List TaskResult) (merged : List String) (b : String),
      env.mergeOk b = (merge_feature_branch menv true).success → ¬ b ∈ merged →
      ¬ b ∈ (integrationFold env rs merged).2) ∧
    (∀ (env : IntegEnv) (r : TaskResult) (rs : List TaskResult) (merged : List String),
      env.branchExists r.branch = true →
      env.mergeOk r.branch = (merge_feature_branch menv true).success →
      (integrationFold env (r :: rs) merged).1 =
        r.branch :: (integrationFold env rs merged).1) := by
  have hfail : merge_feature_branch menv true = ⟨false, true⟩ := by
    have hne : files ≠ [] := List.ne_nil_of_mem hf
    simp [merge_feature_branch, hc, hne, resolveLoop_false hf he]
  refine ⟨by rw [hfail], by rw [hfail], ?_, ?_⟩
  · intro env rs
    rw [hfail]
    induction rs with
    | nil => intro merged b hb hm; exact hm
    | cons r rs ih =>
      intro merged b hb hm
      by_cases hex : env.branchExists r.branch
      · simp only [integrationFold, hex, if_true]
        apply ih _ _ hb
        by_cases hok : env.mergeOk r.branch
        · simp only [hok, if_true]
          intro hmem
          rcases List.mem_append.1 hmem with hmem | hmem
          · exact hm hmem
          · rcases List.mem_singleton.1 hmem with rfl
            rw [hok] at hb
            exact absurd hb.symm (by simp)
        · simpa [hok] using hm
      · simpa [integrationFold, hex] using ih merged b hb hm
  · intro env r rs merged hex hok
    rw [hfail] at hok
    simp [integrationFold, hex, hok, integrationFold_attempted]

/- ### C7: the final verification loop (main.py lines 717-767) -/

/-- Environment for the verification loop, indexed by attempt number: the
test-gate outcome, whether `fix_code` returned a truthy response, whether
`apply_patches` raised, and how many files the fix modified. -/
structure VEnv where
  testPass : Nat → Bool
  fixResp : Nat → Bool
  applyOk : Nat → Bool
  fixFiles : Nat → Nat

/-- Observable outcome of the verification loop: the final `tests_passed`
flag, the number of test-gate runs, and the number of fix-and-commit
cycles. -/
structure VResult where
  testsPassed : Bool
  testRuns : Nat
  commits : Nat
deriving DecidableEq

/-- The body of `for attempt in range(max_retries + 1)` (main.py lines
728-759), with `fuel = max_retries + 1 - attempt` as the structural
measure: run the tests; stop successfully on a pass; on a failure with
attempts remaining, request a fix — a falsy response, an exception while
applying, or zero patched files each break out of the loop; otherwise
commit the fixes and retry. -/
def verifyGo (env : VEnv) (maxRetries : Nat) : Nat → Nat → Nat → Nat → VResult
  | 0, _, runs, commits => ⟨false, runs, commits⟩
  | fuel + 1, attempt, runs, commits =>
    if env.testPass attempt then ⟨true, runs + 1, commits⟩
    else if attempt < maxRetries then
      if env.fixResp attempt then
        if env.applyOk attempt then
          if env.fixFiles attempt ≠ 0 then
            verifyGo env maxRetries fuel (attempt + 1) (runs + 1) (commits + 1)
          else ⟨false, runs + 1, commits⟩
        else ⟨false, runs + 1, commits⟩
      else ⟨false, runs + 1, commits⟩
    else ⟨false, runs + 1, commits⟩

/-- The verification loop entered with `attempt = 0`. -/
def verifyLoop (env : VEnv) (maxRetries : Nat) : VResult :=
  verifyGo env maxRetries (maxRetries + 1) 0 0 0

/-- The whole verification phase: `gate.install_dependencies` is called
once, before the loop (main.py line 722). -/
structure VerifyRun where
  installs : Nat
  result : VResult

/-- Phase-4 verification: one dependency install, then the bounded loop. -/
def runVerification (env : VEnv) (maxRetries : Nat) : VerifyRun :=
  ⟨1, verifyLoop env maxRetries⟩

/-- A fix cycle that lets the loop continue: truthy response, applied
without exception, at least one file patched. -/
def goodFix (env : VEnv) (j : Nat) : Prop :=
  env.fixResp j = true ∧ env.applyOk j = true ∧ env.fixFiles j ≠ 0

theorem verifyGo_testRuns_le (env : VEnv) (N : Nat) :
    ∀ (fuel attempt runs commits : Nat),
      (verifyGo env N fuel attempt runs commits).testRuns ≤ runs + fuel := by
  intro fuel
  induction fuel with
  | zero => intro attempt runs commits; simp [verifyGo]
  | succ f ih =>
    intro attempt runs commits
    simp only [verifyGo]
    by_cases h0 : env.testPass attempt
    · rw [if_pos h0]
      show runs + 1 ≤ runs + (f + 1)
      omega
    · rw [if_neg h0]
      by_cases h1 : attempt < N
      · rw [if_pos h1]
        by_cases h2 : env.fixResp attempt
        · rw [if_pos h2]
          by_cases h3 : env.applyOk attempt
          · rw [if_pos h3]
            by_cases h4 : env.fixFiles attempt ≠ 0
            · rw [if_pos h4]
              have := ih (attempt + 1) (runs + 1) (commits + 1)
              omega
            · rw [if_neg h4]
              show runs + 1 ≤ runs + (f + 1)
              omega
          · rw [if_neg h3]
            show runs + 1 ≤ runs + (f + 1)
            omega
        · rw [if_neg h2]
          show runs + 1 ≤ runs + (f + 1)
          omega
      · rw [if_neg h1]
        show runs + 1 ≤ runs + (f + 1)
        omega

theorem verifyGo_first_pass (env : VEnv) (N : Nat) :
    ∀ (i attempt runs commits fuel : Nat), i < fuel →
      (∀ j, j < i → env.testPass (attempt + j) = false ∧ goodFix env (attempt + j) ∧
        attempt + j < N) →
      env.testPass (attempt + i) = true →
      verifyGo env N fuel attempt runs commits = ⟨true, runs + i + 1, commits + i⟩ := by
  intro i
  induction i with
  | zero =>
    intro attempt runs commits fuel hfuel _ hpass
    rcases fuel with _ | f
    · omega
    · rw [Nat.add_zero] at hpass
      simp [verifyGo, hpass]
  | succ i ih =>
    intro attempt runs commits fuel hfuel hpre hpass
    rcases fuel with _ | f
    · omega
    · obtain ⟨h0, ⟨hfr, hao, hff⟩, hlt⟩ := hpre 0 (by omega)
      rw [Nat.add_zero] at h0 hfr hao hff hlt
      have hstep : verifyGo env N (f + 1) attempt runs commits =
          verifyGo env N f (attempt + 1) (runs + 1) (commits + 1) := by
        simp [verifyGo, h0, hlt, hfr, hao, hff]
      rw [hstep]
      have hpre' : ∀ j, j < i → env.testPass (attempt + 1 + j) = false ∧
          goodFix env (attempt + 1 + j) ∧ attempt + 1 + j < N := by
        intro j hj
        have := hpre (j + 1) (by omega)
        rwa [show attempt + (j + 1) = attempt + 1 + j by omega] at this
      have hpass' : env.testPass (attempt + 1 + i) = true := by
        rwa [show attempt + (i + 1) = attempt + 1 + i by omega] at hpass
      rw [ih (attempt + 1) (runs + 1) (commits + 1) f (by omega) hpre' hpass']
      congr 1 <;> omega

theorem verifyGo_early_stop (env : VEnv) (N : Nat) :
    ∀ (i attempt runs commits fuel : Nat), i < fuel →
      (∀ j, j < i → env.testPass (attempt + j) = false ∧ goodFix env (attempt + j) ∧
        attempt + j < N) →
      env.testPass (attempt + i) = false → attempt + i < N →
      (env.fixResp (attempt + i) = false ∨ env.fixFiles (attempt + i) = 0) →
      verifyGo env N fuel attempt runs commits = ⟨false, runs + i + 1, commits + i⟩ := by
  intro i
  induction i with
  | zero =>
    intro attempt runs commits fuel hfuel _ hfail hlt hbad
    rcases fuel with _ | f
    · omega
    · rw [Nat.add_zero] at hfail hlt hbad
      rcases hbad with hbad | hbad
      · simp [verifyGo, hfail, hlt, hbad]
      · by_cases hfr : env.fixResp attempt
        · by_cases hao : env.applyOk attempt
          · simp [verifyGo, hfail, hlt, hfr, hao, hbad]
          · simp [verifyGo, hfail, hlt, hfr, hao]
        · simp [verifyGo, hfail, hlt, hfr]
  | succ i ih =>
    intro attempt runs commits fuel hfuel hpre hfail hlt hbad
    rcases fuel with _ | f
    · omega
    · obtain ⟨h0, ⟨hfr, hao, hff⟩, hlt0⟩ := hpre 0 (by omega)
      rw [Nat.add_zero] at h0 hfr hao hff hlt0
      have hstep : verifyGo env N (f + 1) attempt runs commits =
          verifyGo env N f (attempt + 1) (runs + 1) (commits + 1) := by
        simp [verifyGo, h0, hlt0, hfr, hao, hff]
      rw [hstep]
      have hpre' : ∀ j, j < i → env.testPass (attempt + 1 + j) = false ∧
          goodFix env (attempt + 1 + j) ∧ attempt + 1 + j < N := by
        intro j hj
        have := hpre (j + 1) (by omega)
        rwa [show attempt + (j + 1) = attempt + 1 + j by omega] at this
      have harith : attempt + (i + 1) = attempt + 1 + i := by omega
      rw [harith] at hfail hlt hbad
      rw [ih (attempt + 1) (runs + 1) (commits + 1) f (by omega) hpre' hfail hlt hbad]
      congr 1 <;> omega

/-- C7: the verification phase installs dependencies once and runs the test
gate at most `N + 1` times; when the first `i` attempts fail with
successful fix-and-commit cycles and attempt `i ≤ N` passes, the loop stops
there with `tests_passed = true`, `i + 1` test runs and exactly `i`
fix-and-commit cycles (so the fail/fail/pass scenario with `N = 2` records
exactly 2 cycles); and when attempt `i < N` fails and the fix step returns
no fixes or patches zero files, the loop stops immediately with failure,
with only `i + 1` test runs. -/
theorem verification_loop_contract :
    (∀ (env : VEnv) (N : Nat), (runVerification env N).installs = 1 ∧
      (verifyLoop env N).testRuns ≤ N + 1) ∧
    (∀ (env : VEnv) (N i : Nat), i ≤ N →
      (∀ j, j < i → env.testPass j = false ∧ goodFix env j) →
      env.testPass i = true → verifyLoop env N = ⟨true, i + 1, i⟩) ∧
    (∀ (env : VEnv) (N i : Nat), i < N →
      (∀ j, j < i → env.testPass j = false ∧ goodFix env j) →
      env.testPass i = false → (env.fixResp i = false ∨ env.fixFiles i = 0) →
      verifyLoop env N = ⟨false, i + 1, i⟩) := by
  refine ⟨?_, ?_, ?_⟩
  · intro env N
    exact ⟨rfl, by simpa using verifyGo_testRuns_le env N (N + 1) 0 0 0⟩
  · intro env N i hi hpre hpass
    have := verifyGo_first_pass env N i 0 0 0 (N + 1) (by omega)
      (by intro j hj; rcases hpre j hj with ⟨h1, h2⟩
          exact ⟨by simpa using h1, by simpa using h2, by omega⟩)
      (by simpa using hpass)
    simpa [verifyLoop] using this
  · intro env N i hi hpre hfail hbad
    have := verifyGo_early_stop env N i 0 0 0 (N + 1) (by omega)
      (by intro j hj; rcases hpre j hj with ⟨h1, h2⟩
          exact ⟨by simpa using h1, by simpa using h2, by omega⟩)
      (by simpa using hfail) (by omega) (by simpa using hbad)
    simpa [verifyLoop] using this

/-- Environment where the test gate fails on attempts 0 and 1 and passes on
attempt 2, with every fix cycle producing one patched file. -/
def envPassC7 : VEnv := ⟨fun i => decide (i = 2), fun _ => true, fun _ => true, fun _ => 1⟩

/-- Environment where the tests fail and the fixer returns no response. -/
def envStopC7 : VEnv := ⟨fun _ => false, fun _ => false, fun _ => true, fun _ => 1⟩

/-- C7 witness: with `max_retries = 2`, the fail/fail/pass scenario ends
with `tests_passed = true`, 3 test runs and exactly 2 fix-and-commit
cycles; and a first-attempt failure with no fix stops after 1 test run. -/
theorem verification_loop_contract_witness :
    verifyLoop envPassC7 2 = ⟨true, 3, 2⟩ ∧ verifyLoop envStopC7 2 = ⟨false, 1, 0⟩ := by
  constructor
  · exact verification_loop_contract.2.1 envPassC7 2 2 (by omega)
      (by intro j hj; interval_cases j <;> exact ⟨rfl, rfl, rfl, by decide⟩) rfl
  · exact verification_loop_contract.2.2 envStopC7 2 0 (by omega)
      (by intro j hj; exact absurd hj (Nat.not_lt_zero j)) rfl (Or.inl rfl)

/- ### C8: resume-skip of completed tasks (main.py lines 542-556) -/

/-- A planned task, as produced by the planning phase (id and title are the
fields the dispatcher and executor key on). -/
structure PlanTask where
  id : String
  title : String
deriving DecidableEq

/-- `completed_task_ids = {r["id"] for r in previous_results if r.get("completed")}`
(main.py line 546). -/
def completedIds (previousResults : List TaskResult) : List String :=
  (previousResults.filter (fun r => r.completed)).map (fun r => r.id)

/-- `tasks_to_run = [t for t in tasks if t["id"] not in completed_task_ids]`
(main.py line 549): the tasks dispatched to workers — one
`executor.submit(process_task, t, ...)` per element (lines 563-579). -/
def tasksToRun (tasks : List PlanTask) (previousResults : List TaskResult) : List PlanTask :=
  tasks.filter (fun t => !((completedIds previousResults).contains t.id))

/-- C8: on resume into phase 3 the dispatched set is exactly the task list
minus the ids of previously checkpointed results marked completed: a task
is dispatched iff it is in the plan and not in the completed-id set; no
completed task is dispatched; and (ids being unique) every non-completed
task is submitted exactly once.  The completed-id set is precisely the ids
of prior results with `completed = true`. -/
theorem resume_skip_correctness (tasks : List PlanTask) (previousResults : List TaskResult) :
    (∀ t, t ∈ tasksToRun tasks previousResults ↔
      t ∈ tasks ∧ ¬ t.id ∈ completedIds previousResults) ∧
    (∀ t, t.id ∈ completedIds previousResults → ¬ t ∈ tasksToRun tasks previousResults) ∧
    ((tasks.map (fun t => t.id)).Nodup →
      ∀ t, t ∈ tasks → ¬ t.id ∈ completedIds previousResults →
        (tasksToRun tasks previousResults).count t = 1) ∧
    (∀ x, x ∈ completedIds previousResults ↔
      ∃ res ∈ previousResults, res.completed = true ∧ res.id = x) := by
  have hmem : ∀ t, t ∈ tasksToRun tasks previousResults ↔
      t ∈ tasks ∧ ¬ t.id ∈ completedIds previousResults := by
    intro t
    rw [tasksToRun, List.mem_filter]
    simp
  refine ⟨hmem, ?_, ?_, ?_⟩
  · intro t ht hmem'
    exact ((hmem t).1 hmem').2 ht
  · intro hnodup t htasks hid
    have hnodupTasks : tasks.Nodup := List.Nodup.of_map _ hnodup
    have hnodupRun : (tasksToRun tasks previousResults).Nodup :=
      (List.filter_sublist tasks).nodup hnodupTasks
    exact List.count_eq_one_of_mem hnodupRun ((hmem t).2 ⟨htasks, hid⟩)
  · intro x
    rw [completedIds, List.mem_map]
    constructor
    · rintro ⟨res, hres, rfl⟩
      rw [List.mem_filter] at hres
      exact ⟨res, hres.1, by simpa using hres.2, rfl⟩
    · rintro ⟨res, hres, hcomp, rfl⟩
      exact ⟨res, List.mem_filter.2 ⟨hres, by simpa using hcomp⟩, rfl⟩

/-- A completed prior result for task `t1`. -/
def prevResultC8 : TaskResult := ⟨"t1", TStatus.SUCCESS, "feat/t1", some 1, some true, none, true⟩

/-- C8 witness: with plan tasks `t1, t2` and a prior completed result for
`t1`, only `t2` is dispatched, exactly once. -/
theorem resume_skip_correctness_witness :
    (tasksToRun [⟨"t1", "A"⟩, ⟨"t2", "B"⟩] [prevResultC8]).count ⟨"t2", "B"⟩ = 1 ∧
    ¬ (⟨"t1", "A"⟩ : PlanTask) ∈ tasksToRun [⟨"t1", "A"⟩, ⟨"t2", "B"⟩] [prevResultC8] := by
  constructor
  · exact (resume_skip_correctness [⟨"t1", "A"⟩, ⟨"t2", "B"⟩] [prevResultC8]).2.2.1
      (by decide) ⟨"t2", "B"⟩ (by decide) (by decide)
  · exact (resume_skip_correctness [⟨"t1", "A"⟩, ⟨"t2", "B"⟩] [prevResultC8]).2.1
      ⟨"t1", "A"⟩ (by decide)

/- ### C1: phase-2 planning state and resume (main.py lines 400-526) -/

/-- A plan: overview plus task breakdown, as parsed from
`create_task_breakdown` or from the architect's refinement. -/
structure PlanData where
  plan_overview : String
  tasks : List PlanTask
deriving DecidableEq

/-- Outcome of `review_and_refine_plan` followed by
`extract_json_from_response` (main.py lines 459-471): the review returned
`"OK"`, or a refined plan was parsed, or parsing failed and the original
plan is kept. -/
inductive ReviewOutcome
  | ok
  | refined (p : PlanData)
  | unparseable

/-- A fixed deterministic planning stub: the initial breakdown and the
architect review outcome. -/
structure PlannerStub where
  breakdown : PlanData
  review : ReviewOutcome

/-- What fresh phase-2 execution leaves behind (main.py lines 444-501): the
task list and overview the run goes on to execute — reassigned from the
refined plan when the architect refines — and the `plan_data` value stored
in the phase-2 checkpoint (line 493), which is never reassigned. -/
structure Phase2Outcome where
  activeTasks : List PlanTask
  activeOverview : String
  storedPlanData : PlanData
deriving DecidableEq

/-- Fresh phase-2 execution (main.py lines 444-501). -/
def phase2Fresh (pl : PlannerStub) : Phase2Outcome :=
  let plan_data := pl.breakdown
  match pl.review with
  | .ok => ⟨plan_data.tasks, plan_data.plan_overview, plan_data⟩
  | .refined p => ⟨p.tasks, p.plan_overview, plan_data⟩
  | .unparseable => ⟨plan_data.tasks, plan_data.plan_overview, plan_data⟩

/-- Phase-2 resume (main.py lines 505-508): the task list is re-read from
the checkpoint's stored `plan_data`. -/
def phase2ResumeTasks (stored : PlanData) : List PlanTask := stored.tasks

/-- A planner whose architect review refines the one-task plan into a
two-task plan. -/
def refinedPlannerC1 : PlannerStub :=
  ⟨⟨"overview", [⟨"t1", "A"⟩]⟩, .refined ⟨"overview-v2", [⟨"t1", "A"⟩, ⟨"t2", "B"⟩]⟩⟩

/-- C1 (code divergence): when the architect refines the plan, the original
run executes the refined task list, but the phase-2 checkpoint stores the
pre-refinement `plan_data`, so a run resumed from the end of phase 2 loads
a different task list than the one the uninterrupted run went on to
execute — resume is not idempotent. -/
theorem phase2_resume_loses_refinement :
    (phase2Fresh refinedPlannerC1).activeTasks = [⟨"t1", "A"⟩, ⟨"t2", "B"⟩] ∧
    phase2ResumeTasks (phase2Fresh refinedPlannerC1).storedPlanData = [⟨"t1", "A"⟩] ∧
    phase2ResumeTasks (phase2Fresh refinedPlannerC1).storedPlanData ≠
      (phase2Fresh refinedPlannerC1).activeTasks :=
  ⟨rfl, rfl, by decide⟩

/- ### C9: patch application path check (modules/coder.py lines 13-49) -/

/-- Python's `str.startswith`, character by character. -/
def charsBeginWith : List Char → List Char → Bool
  | [], _ => true
  | _ :: _, [] => false
  | p :: ps, c :: cs => if p = c then charsBeginWith ps cs else false

/-- `full.startswith(prefix_string)` — the check at coder.py line 34. -/
def pyStartsWith (s pre : String) : Bool := charsBeginWith pre.data s.data

/-- Split a path string on `/`, as `str.split("/")` does. -/
def splitSlashAux : List Char → List Char → List String
  | [], acc => [String.mk acc.reverse]
  | c :: cs, acc =>
    if c = '/' then String.mk acc.reverse :: splitSlashAux cs []
    else splitSlashAux cs (c :: acc)

/-- Split a path on `/` into components. -/
def splitSlash (s : String) : List String := splitSlashAux s.data []

/-- Path normalization as in `os.path.abspath`: resolve `.` and `..`
components against an accumulator of components (never above the
filesystem root). -/
def normComps : List String → List String → List String
  | acc, [] => acc
  | acc, c :: cs =>
    if c = "" ∨ c = "." then normComps acc cs
    else if c = ".." then normComps acc.dropLast cs
    else normComps (acc ++ [c]) cs

/-- Render components back to an absolute path string. -/
def renderPath (comps : List String) : String :=
  comps.foldl (fun acc c => acc ++ "/" ++ c) ""

/-- `os.path.abspath(os.path.join(root_dir, rel_path))`: an absolute
`rel_path` ignores the root, a relative one is resolved against it. -/
def resolveAbs (root : List String) (rel : String) : List String :=
  match rel.data with
  | '/' :: _ => normComps [] (splitSlash rel)
  | _ => normComps root (splitSlash rel)

/-- Whitespace characters stripped by `str.strip()`. -/
def isSpaceChar (c : Char) : Bool :=
  c == ' ' || c == '\t' || c == '\n' || c == '\r'

/-- Python's `rel_path.strip()`. -/
def pyStrip (s : String) : String :=
  String.mk (((s.data.dropWhile isSpaceChar).reverse.dropWhile isSpaceChar).reverse)

/-- A `<<<FILE: path>>> content <<<END_FILE>>>` block parsed from the LLM
response. -/
structure FileBlock where
  path : String
  content : String

/-- What `FilePatcher.apply_patches` does observably: the returned
modified-path list and the resolved absolute paths it writes. -/
structure PatchOutcome where
  modified : List String
  written : List (List String)
deriving DecidableEq

/-- `FilePatcher.apply_patches` (coder.py lines 13-49): for each file
block, strip the path, resolve it against the target root, and write it —
appending it to the returned list — exactly when the resolved absolute
path string starts with the root path string. -/
def apply_patches (root : List String) : List FileBlock → PatchOutcome
  | [] => ⟨[], []⟩
  | b :: bs =>
    let rel := pyStrip b.path
    let full := resolveAbs root rel
    let rest := apply_patches root bs
    if pyStartsWith (renderPath full) (renderPath root) then
      ⟨rel :: rest.modified, full :: rest.written⟩
    else
      ⟨rest.modified, rest.written⟩

/-- The resolved path lies inside the target root (component-wise). -/
def underRoot (root full : List String) : Prop := full.take root.length = root

/-- C9 (code divergence): the block path `../repo-evil/x.py`, resolved
against the root `/w/repo`, lands at `/w/repo-evil/x.py` — outside the
target root — yet the `startswith` string-prefix check accepts it, so
`apply_patches` writes the file and returns its path.  The claimed
guarantee that every path resolving outside the root is rejected fails for
sibling directories whose name extends the root's name. -/
theorem apply_patches_escape_bug :
    apply_patches ["w", "repo"] [⟨"../repo-evil/x.py", "code"⟩] =
      ⟨["../repo-evil/x.py"], [["w", "repo-evil", "x.py"]]⟩ ∧
    ¬ underRoot ["w", "repo"] ["w", "repo-evil", "x.py"] := by
  constructor
  · rfl
  · simp only [underRoot]
    decide

/-- A merge environment whose conflict on `a.py` gets an empty resolver
response. -/
def emptyResolveEnvC6 : MergeEnv := ⟨MergeOutcome.conflict ["a.py"], fun _ => some "", true⟩

/-- C6 witness: the abort theorem applied at the concrete conflicted merge
of `a.py` with an empty resolver response. -/
theorem merge_empty_resolution_aborts_witness :
    (merge_feature_branch emptyResolveEnvC6 true).success = false ∧
    (merge_feature_branch emptyResolveEnvC6 true).aborted = true := by
  have h := merge_empty_resolution_aborts emptyResolveEnvC6 ["a.py"] "a.py" rfl
    (by simp) (Or.inr rfl)
  exact ⟨h.1, h.2.1⟩
